import Mathlib

/-!
# Queue provisioning in `go-rabbitmq` (`main.go`)

A shallow embedding of the visible part of package `rabbitmq`:

* `Queue`, `Queue.GetDeadLetterQueueName`, the constant `deadLetterQueueTtl`;
* `service.DeclareQueues`, run against an abstract AMQP environment that
  records every call made on the connection and on the channel;
* `service.SetConsumePrefetchCount`.

Go strings are embedded as `String`, `time.Duration` (an `int64` count of
nanoseconds) and `int` as `Int`.  The only arithmetic in the file is the
truncated division of `Duration.Milliseconds`, which cannot leave the `int64`
range (`Milliseconds_isInt64`), so no wrap-around is involved.
-/

namespace Rabbitmq

/-! ## Library functions used by `main.go` -/

/-- Range of a Go `int64`. -/
def isInt64 (n : Int) : Prop := -9223372036854775808 ≤ n ∧ n ≤ 9223372036854775807

instance (n : Int) : Decidable (isInt64 n) := by
  unfold isInt64; exact inferInstance

/-- Go `time.Duration.Milliseconds`: `return int64(d) / 1e6`.  Go integer
division truncates toward zero, which is `Int.tdiv`. -/
def Milliseconds (d : Int) : Int := Int.tdiv d 1000000

/-- Operand list of the `%!(EXTRA ...)` suffix that `fmt` appends when
operands are left over (string operands only). -/
def extraOperands : List String → List Char
  | [] => []
  | [a] => "string=".toList ++ a.toList
  | a :: b :: rest => "string=".toList ++ a.toList ++ ", ".toList ++ extraOperands (b :: rest)

/-- Go `fmt` formatting loop, restricted to string operands and to the verbs
`%s`, `%v` and `%%` without flags, width or precision.  Plain characters are
copied, `%s`/`%v` consume one operand and copy it unchanged, a missing operand
prints `%!s(MISSING)`, a trailing `%` prints `%!(NOVERB)`, left-over operands
print `%!(EXTRA string=...)`.  A format outside this fragment gives `none`. -/
def doPrintf : List Char → List String → Option (List Char)
  | [], [] => some []
  | [], a :: rest => some ("%!(EXTRA ".toList ++ extraOperands (a :: rest) ++ [')'])
  | [c], args =>
    if c = '%' then (doPrintf [] args).map (fun out => "%!(NOVERB)".toList ++ out)
    else (doPrintf [] args).map (fun out => c :: out)
  | c :: v :: rest, args =>
    if c = '%' then
      if v = '%' then (doPrintf rest args).map (fun out => '%' :: out)
      else if v = 's' ∨ v = 'v' then
        match args with
        | a :: more => (doPrintf rest more).map (fun out => a.toList ++ out)
        | [] => (doPrintf rest []).map (fun out => ['%', '!', v] ++ "(MISSING)".toList ++ out)
      else none
    else (doPrintf (v :: rest) args).map (fun out => c :: out)

/-- Go `fmt.Sprintf` on the fragment of `doPrintf`. -/
def Sprintf (format : String) (a : List String) : Option String :=
  (doPrintf format.toList a).map String.mk

/-! ## Data model -/

/-- Constant `deadLetterQueueTtl = 604800000` (milliseconds). -/
def deadLetterQueueTtl : Int := 604800000

/-- Go `type Queue struct { Name string; Ttl time.Duration }`. -/
structure Queue where
  Name : String
  Ttl : Int
  deriving DecidableEq, Repr

/-- Go `func (q *Queue) GetDeadLetterQueueName() string`:
`return fmt.Sprintf("%s.DL", q.Name)`. -/
def Queue.GetDeadLetterQueueName (q : Queue) : String :=
  (Sprintf "%s.DL" [q.Name]).getD ""

/-- A value stored in an `amqp.Table` (`map[string]any`) by this program:
a `string`, an `int64` (result of `Milliseconds`) or an `int` (the untyped
constant `deadLetterQueueTtl` converted to `any`). -/
inductive ArgValue where
  | str (s : String)
  | int64 (n : Int)
  | int (n : Int)
  deriving DecidableEq, Repr

/-- Go `map[string]any` as an association list with unique keys. -/
abbrev Table := List (String × ArgValue)

/-- Map read `t[k]`. -/
def Table.get? : Table → String → Option ArgValue
  | [], _ => none
  | (k', v) :: rest, k => if k' = k then some v else Table.get? rest k

/-- Map write `t[k] = v`: replaces the value of a present key, adds an absent one. -/
def Table.set : Table → String → ArgValue → Table
  | [], k, v => [(k, v)]
  | (k', v') :: rest, k, v => if k' = k then (k, v) :: rest else (k', v') :: Table.set rest k v

/-- Keys of a map. -/
def Table.keys (t : Table) : List String := t.map Prod.fst

/-- Equality of two maps as maps: the same keys with the same values, in any order. -/
def Table.same (a b : Table) : Bool :=
  (a.keys ++ b.keys).all (fun k => decide (a.get? k = b.get? k))

/-- Parameters of one `channel.QueueDeclare(name, durable, autoDelete,
exclusive, noWait, args)` call. -/
structure QueueDeclareArgs where
  name : String
  durable : Bool
  autoDelete : Bool
  exclusive : Bool
  noWait : Bool
  args : Table
  deriving DecidableEq, Repr

/-! ## The AMQP environment -/

/-- Go `*errors.Error` of `github.com/go-errors/errors`: the wrapped error
(field `Err`); the captured stack is not modelled. -/
structure errors.Error (ε : Type) where
  Err : ε
  deriving DecidableEq, Repr

/-- Go `errors.Wrap(err, 0)` applied to a non-nil error that is not already an
`*errors.Error` (broker errors are not): a fresh `*errors.Error` around it. -/
def errors.Wrap {ε : Type} (e : ε) : errors.Error ε := ⟨e⟩

/-- The external collaborators of `DeclareQueues` as a deterministic
environment over a state `β`: connection handles `κ`, channel handles `χ`,
broker errors `ε`.  `getConnection` is a method of `service` that is not part
of the visible source; it is a parameter here, and whatever it does to the
receiver or to the broker is part of the environment state. -/
structure Env (β κ χ ε : Type) where
  /-- The call `s.getConnection()`. -/
  getConnection : β → β × κ
  /-- The call `connection.Channel()`: a channel or an error. -/
  Channel : β → κ → β × Except ε χ
  /-- The call `channel.QueueDeclare(...)`: `none` is a nil error. -/
  QueueDeclare : β → χ → QueueDeclareArgs → β × Option ε
  /-- The call `channel.Close()`; its result is discarded by the caller. -/
  Close : β → χ → β

/-- One recorded call on an AMQP connection or channel. -/
inductive Call (κ χ : Type) where
  | Channel (conn : κ)
  | QueueDeclare (ch : χ) (d : QueueDeclareArgs)
  | Close (ch : χ)
  deriving DecidableEq, Repr

/-- Environment state together with the trace of the calls made so far. -/
structure World (β κ χ : Type) where
  broker : β
  trace : List (Call κ χ)

section Calls

variable {β κ χ ε : Type}

/-- Instrumented `s.getConnection().Channel()`. -/
def World.Channel (env : Env β κ χ ε) (w : World β κ χ) : World β κ χ × Except ε χ :=
  let gc := env.getConnection w.broker
  let r := env.Channel gc.1 gc.2
  (⟨r.1, w.trace ++ [Call.Channel gc.2]⟩, r.2)

/-- Instrumented `channel.QueueDeclare(...)`. -/
def World.QueueDeclare (env : Env β κ χ ε) (ch : χ) (d : QueueDeclareArgs)
    (w : World β κ χ) : World β κ χ × Option ε :=
  let r := env.QueueDeclare w.broker ch d
  (⟨r.1, w.trace ++ [Call.QueueDeclare ch d]⟩, r.2)

/-- Instrumented `channel.Close()`. -/
def World.Close (env : Env β κ χ ε) (ch : χ) (w : World β κ χ) : World β κ χ :=
  ⟨env.Close w.broker ch, w.trace ++ [Call.Close ch]⟩

/-! ## `service.DeclareQueues` -/

/-- The body of `for _, queue := range queues { ... }` in `DeclareQueues`,
with its two early `return errors.Wrap(err, 0)`; `none` means the loop ran to
its end. -/
def declareLoop (env : Env β κ χ ε) (channel : χ) :
    List Queue → World β κ χ → World β κ χ × Option (errors.Error ε)
  | [], w => (w, none)
  | queue :: rest, w =>
    let queueArgs : Table :=
      (Table.set (Table.set [] "x-dead-letter-exchange" (ArgValue.str ""))
        "x-dead-letter-routing-key" (ArgValue.str queue.GetDeadLetterQueueName))
    let queueArgs : Table :=
      if queue.Ttl ≠ 0 then
        Table.set queueArgs "x-message-ttl" (ArgValue.int64 (Milliseconds queue.Ttl))
      else queueArgs
    match World.QueueDeclare env channel ⟨queue.Name, true, false, false, false, queueArgs⟩ w with
    | (w, some err) => (w, some (errors.Wrap err))
    | (w, none) =>
      -- dead-letter queue
      match World.QueueDeclare env channel
          ⟨queue.GetDeadLetterQueueName, true, false, false, false,
            Table.set [] "x-message-ttl" (ArgValue.int deadLetterQueueTtl)⟩ w with
      | (w, some err) => (w, some (errors.Wrap err))
      | (w, none) => declareLoop env channel rest w

/-- Go `func (s *service) DeclareQueues(queues []Queue) error`.  The result
`none` is Go `nil`.  `defer channel.Close()` is registered only after the
channel was opened and runs when the function returns, on every path. -/
def DeclareQueues (env : Env β κ χ ε) (queues : List Queue) (w : World β κ χ) :
    World β κ χ × Option (errors.Error ε) :=
  match World.Channel env w with
  | (w, Except.error err) => (w, some (errors.Wrap err))
  | (w, Except.ok channel) =>
    let r := declareLoop env channel queues w
    (World.Close env channel r.1, r.2)

end Calls

/-! ## `service.SetConsumePrefetchCount` -/

/-- Go `type service struct`.  Pointers are `Option` handles (`none` is
`nil`), a `sync.Mutex` is its locked flag, `consumeChannelMap` is an
association list from queue name to destination channel `δ`. -/
structure service (κ χ δ : Type) where
  connection : Option κ
  connectionLock : Bool
  consumeChannel : Option χ
  consumeChannelLock : Bool
  consumeChannelMap : List (String × δ)
  consumePrefetchCount : Int
  publishChannel : Option χ
  publishChannelLock : Bool
  url : String

/-- Go `func (s *service) SetConsumePrefetchCount(count int)`:
`s.consumePrefetchCount = count`.  The world is passed through to make the
absence of AMQP calls explicit. -/
def SetConsumePrefetchCount {β κ χ δ : Type} (s : service κ χ δ) (count : Int)
    (w : World β κ χ) : service κ χ δ × World β κ χ :=
  ({ s with consumePrefetchCount := count }, w)

/-! ## A broker that holds declared queues -/

/-- What the broker keeps for a declared queue: its flags and its arguments
(`noWait` is a mode of the call, not a property of the queue). -/
structure QueueProps where
  durable : Bool
  autoDelete : Bool
  exclusive : Bool
  args : Table
  deriving DecidableEq, Repr

/-- Queue properties requested by a declaration. -/
def QueueDeclareArgs.props (d : QueueDeclareArgs) : QueueProps :=
  ⟨d.durable, d.autoDelete, d.exclusive, d.args⟩

/-- Identical flags and identical arguments. -/
def QueueProps.same (p p' : QueueProps) : Bool :=
  p.durable == p'.durable && p.autoDelete == p'.autoDelete &&
    p.exclusive == p'.exclusive && Table.same p.args p'.args

/-- Broker state: a map from queue name to the properties of the queue. -/
abbrev Broker := List (String × QueueProps)

/-- The queue held under a name, if any. -/
def Broker.find? : Broker → String → Option QueueProps
  | [], _ => none
  | (n, p) :: rest, name => if n = name then some p else Broker.find? rest name

/-- Errors of the AMQP calls: `ChannelError` and `DeclareError` are the
broker errors named by the specification; `ShortstrTooLong` is the error the
client library returns, before anything is sent, for a queue name that does
not fit an AMQP short string (more than 255 bytes). -/
inductive BrokerError where
  | ChannelError
  | DeclareError (queue : String)
  | ShortstrTooLong (name : String)
  deriving DecidableEq, Repr

/-- Broker semantics of a queue declaration (spec 4.3, "Idempotence"):
an absent name is added; a present name with identical flags and arguments is
accepted and nothing changes; a present name with different ones is rejected
with `DeclareError` and nothing changes. -/
def Broker.declare (b : Broker) (d : QueueDeclareArgs) : Broker × Option BrokerError :=
  match b.find? d.name with
  | none => (b ++ [(d.name, d.props)], none)
  | some p => if p.same d.props then (b, none) else (b, some (BrokerError.DeclareError d.name))

/-- The call `channel.QueueDeclare` against such a broker.  The queue name is
sent as an AMQP short string, whose length is one byte: the client library
refuses a name of more than 255 bytes with an error and sends nothing, so the
broker is unchanged.  A name that fits reaches the broker, which answers by
`Broker.declare`. -/
def Broker.QueueDeclare (b : Broker) (d : QueueDeclareArgs) : Broker × Option BrokerError :=
  if d.name.utf8ByteSize ≤ 255 then b.declare d
  else (b, some (BrokerError.ShortstrTooLong d.name))

/-- The environment given by such a broker: one connection, channels always
open, declarations follow `Broker.QueueDeclare`, closing changes nothing. -/
def brokerEnv : Env Broker Unit Unit BrokerError where
  getConnection b := (b, ())
  Channel b _ := (b, Except.ok ())
  QueueDeclare b _ d := b.QueueDeclare d
  Close b _ := b

/-- An environment that follows a script: the state counts the declarations
issued so far, the `n`-th one (from 0) fails with `e` when `fails n = some e`,
and the channel opens unless `openError` is set. -/
def scriptEnv {ε : Type} (openError : Option ε) (fails : Nat → Option ε) : Env Nat Unit Nat ε where
  getConnection n := (n, ())
  Channel n _ := match openError with
    | some e => (n, Except.error e)
    | none => (n, Except.ok 7)
  QueueDeclare n _ _ := (n + 1, fails n)
  Close n _ := n

/-! ## Closed forms used in the statements -/

/-- The argument table of a primary declaration, written out. -/
def primaryArgs (q : Queue) : Table :=
  if q.Ttl = 0 then
    [("x-dead-letter-exchange", ArgValue.str ""),
     ("x-dead-letter-routing-key", ArgValue.str (q.Name ++ ".DL"))]
  else
    [("x-dead-letter-exchange", ArgValue.str ""),
     ("x-dead-letter-routing-key", ArgValue.str (q.Name ++ ".DL")),
     ("x-message-ttl", ArgValue.int64 (Milliseconds q.Ttl))]

/-- The argument table of a dead-letter declaration, written out. -/
def deadLetterArgs : Table := [("x-message-ttl", ArgValue.int 604800000)]

/-- The declaration `primary(q)`. -/
def primaryDeclaration (q : Queue) : QueueDeclareArgs :=
  ⟨q.Name, true, false, false, false, primaryArgs q⟩

/-- The declaration `deadLetter(q)`. -/
def deadLetterDeclaration (q : Queue) : QueueDeclareArgs :=
  ⟨q.Name ++ ".DL", true, false, false, false, deadLetterArgs⟩

/-- The full declaration sequence `primary(q1), deadLetter(q1), ...,
primary(qn), deadLetter(qn)` of a descriptor list. -/
def declarationSequence : List Queue → List QueueDeclareArgs
  | [] => []
  | q :: rest => primaryDeclaration q :: deadLetterDeclaration q :: declarationSequence rest

/-- The declarations recorded in a trace, in order. -/
def declarationsOf {κ χ : Type} : List (Call κ χ) → List QueueDeclareArgs
  | [] => []
  | Call.QueueDeclare _ d :: rest => d :: declarationsOf rest
  | _ :: rest => declarationsOf rest

/-- Environment state after the declarations `ds` were issued one after the other. -/
def brokerAfter {β κ χ ε : Type} (env : Env β κ χ ε) (ch : χ) (b : β) :
    List QueueDeclareArgs → β
  | [] => b
  | d :: ds => brokerAfter env ch (env.QueueDeclare b ch d).1 ds

/-- Issuing a list of declarations in order, stopping at the first failure. -/
def issueAll {β κ χ ε : Type} (env : Env β κ χ ε) (ch : χ) :
    List QueueDeclareArgs → World β κ χ → World β κ χ × Option (errors.Error ε)
  | [], w => (w, none)
  | d :: ds, w =>
    match World.QueueDeclare env ch d w with
    | (w, some err) => (w, some (errors.Wrap err))
    | (w, none) => issueAll env ch ds w

/-- The data-model invariant of a descriptor list: every `Name` non-empty,
`Name`s pairwise distinct. -/
def dataModelInvariant (queues : List Queue) : Prop :=
  (∀ q ∈ queues, q.Name ≠ "") ∧ (queues.map Queue.Name).Nodup

/-- No descriptor is named like the dead-letter queue of a descriptor of the list. -/
def noDeadLetterClash (queues : List Queue) : Prop :=
  ∀ q ∈ queues, ∀ q' ∈ queues, q.Name ≠ q'.Name ++ ".DL"

/-- Every `Name` is at most 252 bytes long, so that `Name` followed by `.DL`
still fits the 255 bytes of an AMQP queue name. -/
def deadLetterNamesFit (queues : List Queue) : Prop :=
  ∀ q ∈ queues, q.Name.utf8ByteSize + 3 ≤ 255

/-- The connection `s.getConnection()` hands out in state `b`. -/
def Env.conn {β κ χ ε : Type} (env : Env β κ χ ε) (b : β) : κ := (env.getConnection b).2

/-- State and result of `s.getConnection().Channel()` in state `b`. -/
def Env.openChannel {β κ χ ε : Type} (env : Env β κ χ ε) (b : β) : β × Except ε χ :=
  env.Channel (env.getConnection b).1 (env.getConnection b).2

/-- The declarations `DeclareQueues` issues, in order, when run on `queues`
from environment state `b`. -/
def declared {β κ χ ε : Type} (env : Env β κ χ ε) (queues : List Queue) (b : β) :
    List QueueDeclareArgs :=
  declarationsOf (DeclareQueues env queues ⟨b, []⟩).1.trace

theorem Milliseconds_of_nonneg (d : Int) (h : 0 ≤ d) : Milliseconds d = d / 1000000 := by
  unfold Milliseconds
  exact Int.tdiv_eq_ediv h (by norm_num)

theorem Milliseconds_of_nonpos (d : Int) (h : d ≤ 0) :
    Milliseconds d = -((-d) / 1000000) := by
  unfold Milliseconds
  have h1 : Int.tdiv d 1000000 = -Int.tdiv (-d) 1000000 := by
    rw [Int.neg_tdiv, neg_neg]
  rw [h1, Int.tdiv_eq_ediv (by omega) (by norm_num)]

theorem Milliseconds_isInt64 (d : Int) (h : isInt64 d) : isInt64 (Milliseconds d) := by
  unfold isInt64 at *
  rcases le_total 0 d with hd | hd
  · rw [Milliseconds_of_nonneg d hd]; omega
  · rw [Milliseconds_of_nonpos d hd]; omega

/-- Truncation toward zero: the millisecond count, read back as nanoseconds,
lies between zero and the duration and misses it by less than a millisecond. -/
theorem Milliseconds_trunc (d : Int) :
    |d - Milliseconds d * 1000000| < 1000000 ∧
      |Milliseconds d * 1000000| ≤ |d| ∧
      (Milliseconds d * 1000000 = d ↔ (1000000 : Int) ∣ d) := by
  rcases le_total 0 d with hd | hd
  · rw [Milliseconds_of_nonneg d hd]
    refine ⟨?_, ?_, ?_⟩
    · rw [abs_lt]; omega
    · rw [abs_of_nonneg hd, abs_of_nonneg (by omega)]; omega
    · omega
  · rw [Milliseconds_of_nonpos d hd]
    refine ⟨?_, ?_, ?_⟩
    · rw [abs_lt]; omega
    · rw [abs_of_nonpos hd, abs_of_nonpos (by omega)]; omega
    · omega

theorem GetDeadLetterQueueName_eq (q : Queue) :
    q.GetDeadLetterQueueName = q.Name ++ ".DL" := by
  have h : doPrintf "%s.DL".toList [q.Name] = some (q.Name.toList ++ ".DL".toList) := rfl
  simp only [Queue.GetDeadLetterQueueName, Sprintf, h, Option.map_some', Option.getD_some]
  apply String.ext
  simp

theorem primaryArgs_eq (q : Queue) :
    (if q.Ttl ≠ 0 then
        Table.set
          (Table.set (Table.set [] "x-dead-letter-exchange" (ArgValue.str ""))
            "x-dead-letter-routing-key" (ArgValue.str q.GetDeadLetterQueueName))
          "x-message-ttl" (ArgValue.int64 (Milliseconds q.Ttl))
      else
        Table.set (Table.set [] "x-dead-letter-exchange" (ArgValue.str ""))
          "x-dead-letter-routing-key" (ArgValue.str q.GetDeadLetterQueueName)) =
      primaryArgs q := by
  unfold primaryArgs
  by_cases h : q.Ttl = 0 <;> simp [h, Table.set, GetDeadLetterQueueName_eq]

section Trace

variable {β κ χ ε : Type}

theorem declareLoop_eq_issueAll (env : Env β κ χ ε) (ch : χ) (queues : List Queue)
    (w : World β κ χ) :
    declareLoop env ch queues w = issueAll env ch (declarationSequence queues) w := by
  induction queues generalizing w with
  | nil => rfl
  | cons q rest ih =>
    simp only [declareLoop, primaryArgs_eq]
    simp only [declarationSequence, issueAll, primaryDeclaration, deadLetterDeclaration,
      deadLetterArgs, deadLetterQueueTtl, GetDeadLetterQueueName_eq, Table.set, ih]

theorem DeclareQueues_of_open_error (env : Env β κ χ ε) (queues : List Queue)
    (w : World β κ χ) (e : ε) (h : (env.openChannel w.broker).2 = Except.error e) :
    DeclareQueues env queues w =
      (⟨(env.openChannel w.broker).1, w.trace ++ [Call.Channel (env.conn w.broker)]⟩,
        some (errors.Wrap e)) := by
  unfold Env.openChannel at h
  simp only [DeclareQueues, World.Channel, Env.openChannel, Env.conn]
  split
  · next w1 err heq =>
    simp only [Prod.mk.injEq] at heq
    obtain ⟨h1, h2⟩ := heq
    rw [h] at h2
    cases h2
    rw [← h1]
  · next w1 c heq =>
    simp only [Prod.mk.injEq] at heq
    rw [h] at heq
    exact absurd heq.2 (by simp)

theorem DeclareQueues_of_open_ok (env : Env β κ χ ε) (queues : List Queue)
    (w : World β κ χ) (ch : χ) (h : (env.openChannel w.broker).2 = Except.ok ch) :
    DeclareQueues env queues w =
      (World.Close env ch (issueAll env ch (declarationSequence queues)
          ⟨(env.openChannel w.broker).1, w.trace ++ [Call.Channel (env.conn w.broker)]⟩).1,
        (issueAll env ch (declarationSequence queues)
          ⟨(env.openChannel w.broker).1, w.trace ++ [Call.Channel (env.conn w.broker)]⟩).2) := by
  unfold Env.openChannel at h
  simp only [DeclareQueues, World.Channel, Env.openChannel, Env.conn]
  split
  · next w1 err heq =>
    simp only [Prod.mk.injEq] at heq
    rw [h] at heq
    exact absurd heq.2 (by simp)
  · next w1 c heq =>
    simp only [Prod.mk.injEq] at heq
    obtain ⟨h1, h2⟩ := heq
    rw [h] at h2
    cases h2
    rw [← h1, declareLoop_eq_issueAll]

theorem issueAll_ok (env : Env β κ χ ε) (ch : χ) (ds : List QueueDeclareArgs)
    (w : World β κ χ)
    (h : ∀ i d, ds[i]? = some d →
      (env.QueueDeclare (brokerAfter env ch w.broker (ds.take i)) ch d).2 = none) :
    issueAll env ch ds w =
      (⟨brokerAfter env ch w.broker ds, w.trace ++ ds.map (Call.QueueDeclare ch)⟩, none) := by
  induction ds generalizing w with
  | nil => simp [issueAll, brokerAfter]
  | cons d ds ih =>
    have h0 := h 0 d (by simp)
    simp only [List.take, brokerAfter] at h0
    have hstep : World.QueueDeclare env ch d w =
        (⟨(env.QueueDeclare w.broker ch d).1, w.trace ++ [Call.QueueDeclare ch d]⟩, none) := by
      simp only [World.QueueDeclare, h0]
    simp only [issueAll, hstep]
    rw [ih]
    · simp [brokerAfter]
    · intro i di hi
      have := h (i + 1) di (by simpa using hi)
      simpa [brokerAfter] using this

theorem issueAll_fail (env : Env β κ χ ε) (ch : χ) (ds : List QueueDeclareArgs)
    (w : World β κ χ) (k : Nat) (d : QueueDeclareArgs) (e : ε)
    (hk : ds[k]? = some d)
    (hok : ∀ i di, i < k → ds[i]? = some di →
      (env.QueueDeclare (brokerAfter env ch w.broker (ds.take i)) ch di).2 = none)
    (hfail : (env.QueueDeclare (brokerAfter env ch w.broker (ds.take k)) ch d).2 = some e) :
    issueAll env ch ds w =
      (⟨(env.QueueDeclare (brokerAfter env ch w.broker (ds.take k)) ch d).1,
        w.trace ++ (ds.take (k + 1)).map (Call.QueueDeclare ch)⟩, some (errors.Wrap e)) := by
  induction ds generalizing w k with
  | nil => simp at hk
  | cons d0 ds ih =>
    cases k with
    | zero =>
      simp only [List.getElem?_cons_zero, Option.some.injEq] at hk
      subst hk
      simp only [List.take, brokerAfter] at hfail
      have hstep : World.QueueDeclare env ch d0 w =
          (⟨(env.QueueDeclare w.broker ch d0).1, w.trace ++ [Call.QueueDeclare ch d0]⟩,
            some e) := by
        simp only [World.QueueDeclare, hfail]
      simp [issueAll, hstep, brokerAfter]
    | succ k =>
      have h0 := hok 0 d0 (by omega) (by simp)
      simp only [List.take, brokerAfter] at h0
      have hstep : World.QueueDeclare env ch d0 w =
          (⟨(env.QueueDeclare w.broker ch d0).1, w.trace ++ [Call.QueueDeclare ch d0]⟩,
            none) := by
        simp only [World.QueueDeclare, h0]
      simp only [issueAll, hstep]
      rw [ih _ k (by simpa using hk)]
      · simp [brokerAfter]
      · intro i di hi hdi
        have := hok (i + 1) di (by omega) (by simpa using hdi)
        simpa [brokerAfter] using this
      · simpa [brokerAfter] using hfail

theorem issueAll_trace (env : Env β κ χ ε) (ch : χ) (ds : List QueueDeclareArgs)
    (w : World β κ χ) :
    ∃ k, k ≤ ds.length ∧
      (issueAll env ch ds w).1.trace = w.trace ++ (ds.take k).map (Call.QueueDeclare ch) ∧
      ((issueAll env ch ds w).2 = none → k = ds.length) := by
  induction ds generalizing w with
  | nil => exact ⟨0, by simp [issueAll]⟩
  | cons d ds ih =>
    cases hr : (env.QueueDeclare w.broker ch d).2 with
    | some e =>
      refine ⟨1, by simp, ?_, ?_⟩
      · simp [issueAll, World.QueueDeclare, hr]
      · simp [issueAll, World.QueueDeclare, hr]
    | none =>
      obtain ⟨k, hk, ht, hn⟩ :=
        ih ⟨(env.QueueDeclare w.broker ch d).1, w.trace ++ [Call.QueueDeclare ch d]⟩
      refine ⟨k + 1, by simpa using hk, ?_, ?_⟩
      · simp only [issueAll, World.QueueDeclare, hr]
        rw [ht]; simp
      · simp only [issueAll, World.QueueDeclare, hr]
        intro h; simp [hn h]

theorem issueAll_result (env : Env β κ χ ε) (ch : χ) (ds : List QueueDeclareArgs)
    (w : World β κ χ) :
    (issueAll env ch ds w).2 = none ∨ ∃ e, (issueAll env ch ds w).2 = some (errors.Wrap e) := by
  induction ds generalizing w with
  | nil => exact Or.inl rfl
  | cons d ds ih =>
    cases hr : (env.QueueDeclare w.broker ch d).2 with
    | some e => exact Or.inr ⟨e, by simp [issueAll, World.QueueDeclare, hr]⟩
    | none =>
      simp only [issueAll, World.QueueDeclare, hr]
      exact ih _

theorem declarationsOf_append (t u : List (Call κ χ)) :
    declarationsOf (t ++ u) = declarationsOf t ++ declarationsOf u := by
  induction t with
  | nil => rfl
  | cons c t ih => cases c <;> simp [declarationsOf, ih]

theorem declarationsOf_map (ch : χ) (ds : List QueueDeclareArgs) :
    declarationsOf (κ := κ) (ds.map (Call.QueueDeclare ch)) = ds := by
  induction ds with
  | nil => rfl
  | cons d ds ih => simp [declarationsOf, ih]

end Trace

theorem declarationSequence_length (queues : List Queue) :
    (declarationSequence queues).length = 2 * queues.length := by
  induction queues with
  | nil => rfl
  | cons q rest ih => simp [declarationSequence, ih]; omega

theorem declarationSequence_even (queues : List Queue) (i : Nat) (d : QueueDeclareArgs)
    (h : (declarationSequence queues)[2 * i]? = some d) :
    ∃ q, queues[i]? = some q ∧ d = primaryDeclaration q := by
  induction queues generalizing i with
  | nil => simp [declarationSequence] at h
  | cons q rest ih =>
    cases i with
    | zero =>
      simp only [declarationSequence, Nat.mul_zero, List.getElem?_cons_zero,
        Option.some.injEq] at h
      exact ⟨q, by simp, h.symm⟩
    | succ i =>
      have e : 2 * (i + 1) = 2 * i + 1 + 1 := by omega
      rw [e] at h
      simp only [declarationSequence, List.getElem?_cons_succ] at h
      obtain ⟨q', h1, h2⟩ := ih i h
      exact ⟨q', by simpa using h1, h2⟩

theorem declarationSequence_odd (queues : List Queue) (i : Nat) (d : QueueDeclareArgs)
    (h : (declarationSequence queues)[2 * i + 1]? = some d) :
    ∃ q, queues[i]? = some q ∧ d = deadLetterDeclaration q := by
  induction queues generalizing i with
  | nil => simp [declarationSequence] at h
  | cons q rest ih =>
    cases i with
    | zero =>
      simp only [declarationSequence, Nat.mul_zero, Nat.zero_add, List.getElem?_cons_succ,
        List.getElem?_cons_zero, Option.some.injEq] at h
      exact ⟨q, by simp, h.symm⟩
    | succ i =>
      have e : 2 * (i + 1) + 1 = 2 * i + 1 + 1 + 1 := by omega
      rw [e] at h
      simp only [declarationSequence, List.getElem?_cons_succ] at h
      obtain ⟨q', h1, h2⟩ := ih i h
      exact ⟨q', by simpa using h1, h2⟩

/-! ### Tables and brokers -/

theorem Broker.find?_append_of_none (b b' : Broker) (n : String)
    (h : b.find? n = none) : Broker.find? (b ++ b') n = Broker.find? b' n := by
  induction b with
  | nil => rfl
  | cons e rest ih =>
    obtain ⟨n', p'⟩ := e
    by_cases hn : n' = n
    · simp [Broker.find?, if_pos hn] at h
    · simp only [Broker.find?, if_neg hn, List.cons_append] at h ⊢
      exact ih h

theorem Broker.QueueDeclare_of_fits (b : Broker) (d : QueueDeclareArgs)
    (h : d.name.utf8ByteSize ≤ 255) : b.QueueDeclare d = b.declare d := by
  simp [Broker.QueueDeclare, h]

theorem DeclareQueues_brokerEnv (queues : List Queue) (w : World Broker Unit Unit) :
    DeclareQueues brokerEnv queues w =
      (World.Close brokerEnv ()
          (issueAll brokerEnv () (declarationSequence queues)
            ⟨w.broker, w.trace ++ [Call.Channel ()]⟩).1,
        (issueAll brokerEnv () (declarationSequence queues)
            ⟨w.broker, w.trace ++ [Call.Channel ()]⟩).2) :=
  DeclareQueues_of_open_ok brokerEnv queues w () rfl

theorem declared_eq_take {β κ χ ε : Type} (env : Env β κ χ ε) (queues : List Queue) (b : β) :
    ∃ k, declared env queues b = (declarationSequence queues).take k := by
  unfold declared
  cases ho : (env.openChannel b).2 with
  | error e =>
    refine ⟨0, ?_⟩
    rw [DeclareQueues_of_open_error env queues ⟨b, []⟩ e ho]
    simp [declarationsOf]
  | ok ch =>
    rw [DeclareQueues_of_open_ok env queues ⟨b, []⟩ ch ho]
    obtain ⟨k, _, ht, _⟩ := issueAll_trace env ch (declarationSequence queues)
      ⟨(env.openChannel b).1, [] ++ [Call.Channel (env.conn b)]⟩
    refine ⟨k, ?_⟩
    simp only [World.Close, ht, declarationsOf_append, declarationsOf_map]
    simp [declarationsOf]

theorem declared_getElem? {β κ χ ε : Type} (env : Env β κ χ ε) (queues : List Queue) (b : β)
    (j : Nat) (d : QueueDeclareArgs) (h : (declared env queues b)[j]? = some d) :
    (declarationSequence queues)[j]? = some d := by
  obtain ⟨k, hk⟩ := declared_eq_take env queues b
  rw [hk, List.getElem?_take] at h
  split at h
  · exact h
  · simp at h

/-! ### Names of the declaration sequence -/

theorem String.ne_append_DL (n : String) : n ≠ n ++ ".DL" := by
  intro h
  have := congrArg String.length h
  rw [String.length_append] at this
  have h3 : ".DL".length = 3 := rfl
  omega

theorem String.utf8ByteSize_append_DL (n : String) :
    (n ++ ".DL").utf8ByteSize = n.utf8ByteSize + 3 := by
  show String.utf8ByteSize ⟨n.data ++ ".DL".data⟩ = _
  rw [String.utf8ByteSize_mk, String.utf8Len_append]
  rfl

theorem declarationSequence_names_fit (queues : List Queue) (hfit : deadLetterNamesFit queues)
    (d : QueueDeclareArgs) (hd : d ∈ declarationSequence queues) :
    d.name.utf8ByteSize ≤ 255 := by
  induction queues with
  | nil => simp [declarationSequence] at hd
  | cons q rest ih =>
    have hq := hfit q (List.mem_cons_self _ _)
    simp only [declarationSequence, List.mem_cons] at hd
    rcases hd with rfl | rfl | hd
    · show q.Name.utf8ByteSize ≤ 255
      omega
    · show (q.Name ++ ".DL").utf8ByteSize ≤ 255
      rw [String.utf8ByteSize_append_DL]
      exact hq
    · exact ih (fun a ha => hfit a (List.mem_cons_of_mem _ ha)) hd

theorem String.append_DL_inj (n m : String) (h : n ++ ".DL" = m ++ ".DL") : n = m := by
  have := congrArg String.data h
  rw [String.data_append, String.data_append] at this
  exact String.ext (List.append_cancel_right this)

theorem mem_declarationSequence_names (queues : List Queue) (n : String) :
    n ∈ (declarationSequence queues).map QueueDeclareArgs.name ↔
      ∃ q ∈ queues, n = q.Name ∨ n = q.Name ++ ".DL" := by
  induction queues with
  | nil => simp [declarationSequence]
  | cons q rest ih =>
    simp only [declarationSequence, List.map_cons, List.mem_cons, ih, primaryDeclaration,
      deadLetterDeclaration]
    constructor
    · rintro (h | h | ⟨q', hq', h⟩)
      · exact ⟨q, Or.inl rfl, Or.inl h⟩
      · exact ⟨q, Or.inl rfl, Or.inr h⟩
      · exact ⟨q', Or.inr hq', h⟩
    · rintro ⟨q', hq' | hq', h⟩
      · subst hq'
        rcases h with h | h
        · exact Or.inl h
        · exact Or.inr (Or.inl h)
      · exact Or.inr (Or.inr ⟨q', hq', h⟩)

theorem declarationSequence_names_nodup (queues : List Queue)
    (hnd : (queues.map Queue.Name).Nodup) (hclash : noDeadLetterClash queues) :
    ((declarationSequence queues).map QueueDeclareArgs.name).Nodup := by
  induction queues with
  | nil => simp [declarationSequence]
  | cons q rest ih =>
    rw [List.map_cons, List.nodup_cons] at hnd
    have hrest : noDeadLetterClash rest := fun a ha c hc =>
      hclash a (List.mem_cons_of_mem _ ha) c (List.mem_cons_of_mem _ hc)
    simp only [declarationSequence, List.map_cons, List.nodup_cons, List.mem_cons, not_or]
    refine ⟨⟨?_, ?_⟩, ?_, ih hnd.2 hrest⟩
    · exact String.ne_append_DL q.Name
    · rw [mem_declarationSequence_names]
      rintro ⟨q', hq', h | h⟩
      · exact hnd.1 (List.mem_map.2 ⟨q', hq', h.symm⟩)
      · exact hclash q (List.mem_cons_self _ _) q' (List.mem_cons_of_mem _ hq') h
    · rw [mem_declarationSequence_names]
      rintro ⟨q', hq', h | h⟩
      · exact hclash q' (List.mem_cons_of_mem _ hq') q (List.mem_cons_self _ _) h.symm
      · exact hnd.1 (List.mem_map.2 ⟨q', hq', (String.append_DL_inj _ _ h).symm⟩)

theorem mem_declarationSequence (queues : List Queue) (q : Queue) (hq : q ∈ queues) :
    primaryDeclaration q ∈ declarationSequence queues ∧
      deadLetterDeclaration q ∈ declarationSequence queues := by
  induction queues with
  | nil => simp at hq
  | cons q0 rest ih =>
    rcases List.mem_cons.1 hq with rfl | h
    · simp [declarationSequence]
    · have := ih h
      simp [declarationSequence, this.1, this.2]

theorem Broker.find?_entries_none (ds : List QueueDeclareArgs) (n : String)
    (h : n ∉ ds.map QueueDeclareArgs.name) :
    Broker.find? (ds.map (fun d => (d.name, d.props))) n = none := by
  induction ds with
  | nil => rfl
  | cons d ds ih =>
    simp only [List.map_cons, List.mem_cons, not_or] at h
    have hn : ¬ d.name = n := fun e => h.1 e.symm
    simp only [List.map_cons, Broker.find?, if_neg hn]
    exact ih h.2

theorem Broker.find?_entries (ds : List QueueDeclareArgs) (d : QueueDeclareArgs)
    (hd : d ∈ ds) (hnd : (ds.map QueueDeclareArgs.name).Nodup) :
    Broker.find? (ds.map (fun d => (d.name, d.props))) d.name = some d.props := by
  induction ds with
  | nil => simp at hd
  | cons d0 ds ih =>
    rw [List.map_cons, List.nodup_cons] at hnd
    rcases List.mem_cons.1 hd with rfl | h
    · simp [Broker.find?]
    · have hne : ¬ d0.name = d.name := fun e =>
        hnd.1 (List.mem_map.2 ⟨d, h, e.symm⟩)
      simp only [List.map_cons, Broker.find?, if_neg hne]
      exact ih h hnd.2

theorem issueAll_broker_fresh (ds : List QueueDeclareArgs) (w : World Broker Unit Unit)
    (hnd : (ds.map QueueDeclareArgs.name).Nodup)
    (hfit : ∀ d ∈ ds, d.name.utf8ByteSize ≤ 255)
    (hfresh : ∀ d ∈ ds, w.broker.find? d.name = none) :
    (issueAll brokerEnv () ds w).2 = none ∧
      (issueAll brokerEnv () ds w).1.broker =
        w.broker ++ ds.map (fun d => (d.name, d.props)) := by
  induction ds generalizing w with
  | nil => simp [issueAll]
  | cons d ds ih =>
    rw [List.map_cons, List.nodup_cons] at hnd
    have hf := hfresh d (List.mem_cons_self _ _)
    have hstep : World.QueueDeclare brokerEnv () d w =
        (⟨w.broker ++ [(d.name, d.props)], w.trace ++ [Call.QueueDeclare () d]⟩, none) := by
      simp [World.QueueDeclare, brokerEnv,
        Broker.QueueDeclare_of_fits _ _ (hfit d (List.mem_cons_self _ _)), Broker.declare, hf]
    simp only [issueAll, hstep]
    have := ih ⟨w.broker ++ [(d.name, d.props)], w.trace ++ [Call.QueueDeclare () d]⟩ hnd.2
      (fun d' hd' => hfit d' (List.mem_cons_of_mem _ hd'))
      (by
        intro d' hd'
        have hne : ¬ d.name = d'.name := fun e =>
          hnd.1 (List.mem_map.2 ⟨d', hd', e.symm⟩)
        show Broker.find? (w.broker ++ [(d.name, d.props)]) d'.name = none
        rw [Broker.find?_append_of_none _ _ _ (hfresh d' (List.mem_cons_of_mem _ hd'))]
        simp [Broker.find?, hne])
    refine ⟨this.1, ?_⟩
    rw [this.2]
    simp

theorem primaryArgs_get?_routing_key (q : Queue) :
    (primaryArgs q).get? "x-dead-letter-routing-key" =
      some (ArgValue.str (q.Name ++ ".DL")) := by
  by_cases h0 : q.Ttl = 0 <;> simp [primaryArgs, h0, Table.get?]

/-- C4: `GetDeadLetterQueueName` returns exactly `Name` followed by the three
characters `.DL`; the result depends on `Name` alone (not on `Ttl`), its length
is the length of `Name` plus 3, in characters and in bytes, and `Name` is a
prefix of it.  This holds for every `Name`, also for the empty one and for one
that already has the suffix `.DL`. -/
theorem GetDeadLetterQueueName_spec (q : Queue) :
    q.GetDeadLetterQueueName = q.Name ++ ".DL" ∧
      (∀ q' : Queue, q'.Name = q.Name →
        q'.GetDeadLetterQueueName = q.GetDeadLetterQueueName) ∧
      q.GetDeadLetterQueueName.length = q.Name.length + 3 ∧
      q.GetDeadLetterQueueName.utf8ByteSize = q.Name.utf8ByteSize + 3 ∧
      q.Name.toList <+: q.GetDeadLetterQueueName.toList ∧
      q.GetDeadLetterQueueName.toList = q.Name.toList ++ ['.', 'D', 'L'] := by
  refine ⟨GetDeadLetterQueueName_eq q, ?_, ?_, ?_, ?_, ?_⟩
  · intro q' h
    rw [GetDeadLetterQueueName_eq, GetDeadLetterQueueName_eq, h]
  · rw [GetDeadLetterQueueName_eq, String.length_append]; rfl
  · rw [GetDeadLetterQueueName_eq]
    show String.utf8ByteSize ⟨q.Name.data ++ ".DL".data⟩ = _
    rw [String.utf8ByteSize_mk, String.utf8Len_append]
    rfl
  · rw [GetDeadLetterQueueName_eq]
    exact ⟨".DL".toList, by simp [String.toList]⟩
  · rw [GetDeadLetterQueueName_eq]
    simp [String.toList]

/-- C10: `SetConsumePrefetchCount(count)` stores `count` (any integer, zero and
negative ones included) in `consumePrefetchCount` and changes no other field of
the service: connection, consume channel, publish channel, registration map,
url and the three locks stay as they were.  The world is returned unchanged, so
no call reaches the broker, and of two calls in a row the last value wins. -/
theorem SetConsumePrefetchCount_frame {β κ χ δ : Type} (s : service κ χ δ)
    (count earlier : Int) (w : World β κ χ) :
    (SetConsumePrefetchCount s count w).1.consumePrefetchCount = count ∧
      (SetConsumePrefetchCount s count w).1.connection = s.connection ∧
      (SetConsumePrefetchCount s count w).1.connectionLock = s.connectionLock ∧
      (SetConsumePrefetchCount s count w).1.consumeChannel = s.consumeChannel ∧
      (SetConsumePrefetchCount s count w).1.consumeChannelLock = s.consumeChannelLock ∧
      (SetConsumePrefetchCount s count w).1.consumeChannelMap = s.consumeChannelMap ∧
      (SetConsumePrefetchCount s count w).1.publishChannel = s.publishChannel ∧
      (SetConsumePrefetchCount s count w).1.publishChannelLock = s.publishChannelLock ∧
      (SetConsumePrefetchCount s count w).1.url = s.url ∧
      (SetConsumePrefetchCount s count w).2.trace = w.trace ∧
      (SetConsumePrefetchCount s count w).2.broker = w.broker ∧
      SetConsumePrefetchCount (SetConsumePrefetchCount s earlier w).1 count
          (SetConsumePrefetchCount s earlier w).2 =
        SetConsumePrefetchCount s count w :=
  ⟨rfl, rfl, rfl, rfl, rfl, rfl, rfl, rfl, rfl, rfl, rfl, rfl⟩

/-- C1: whatever the environment does, the declaration issued at position
`2 * i + 1` (the dead-letter declaration of the `i`-th descriptor `q`, when it
is reached) has the name `q.Name ++ ".DL"`, is durable, not exclusive, not
auto-deleted, not no-wait, and its argument table is exactly
`x-message-ttl ↦ 604800000`: no dependence on `q.Ttl`, no
`x-dead-letter-exchange` and no `x-dead-letter-routing-key`. -/
theorem DeclareQueues_deadLetter_declaration {β κ χ ε : Type} (env : Env β κ χ ε)
    (queues : List Queue) (b : β) (i : Nat) (d : QueueDeclareArgs)
    (h : (declared env queues b)[2 * i + 1]? = some d) :
    ∃ q, queues[i]? = some q ∧
      d.name = q.Name ++ ".DL" ∧
      d.durable = true ∧ d.exclusive = false ∧ d.autoDelete = false ∧ d.noWait = false ∧
      d.args = [("x-message-ttl", ArgValue.int 604800000)] ∧
      d.args.get? "x-message-ttl" = some (ArgValue.int deadLetterQueueTtl) ∧
      d.args.get? "x-dead-letter-exchange" = none ∧
      d.args.get? "x-dead-letter-routing-key" = none := by
  obtain ⟨q, hq, hd⟩ :=
    declarationSequence_odd queues i d (declared_getElem? env queues b _ d h)
  subst hd
  have h1 : Table.get? deadLetterArgs "x-message-ttl" =
      some (ArgValue.int deadLetterQueueTtl) := by decide
  have h2 : Table.get? deadLetterArgs "x-dead-letter-exchange" = none := by decide
  have h3 : Table.get? deadLetterArgs "x-dead-letter-routing-key" = none := by decide
  exact ⟨q, hq, rfl, rfl, rfl, rfl, rfl, rfl, h1, h2, h3⟩

theorem DeclareQueues_deadLetter_declaration_witness :
    (declared brokerEnv [⟨"orders", 5000000000⟩] ([] : Broker))[2 * 0 + 1]? =
        some ⟨"orders.DL", true, false, false, false,
          [("x-message-ttl", ArgValue.int 604800000)]⟩ ∧
      ∃ q : Queue, [(⟨"orders", 5000000000⟩ : Queue)][0]? = some q ∧
        "orders.DL" = q.Name ++ ".DL" ∧
        true = true ∧ false = false ∧ false = false ∧ false = false ∧
        [("x-message-ttl", ArgValue.int 604800000)] =
          [("x-message-ttl", ArgValue.int 604800000)] ∧
        Table.get? [("x-message-ttl", ArgValue.int 604800000)] "x-message-ttl" =
          some (ArgValue.int deadLetterQueueTtl) ∧
        Table.get? [("x-message-ttl", ArgValue.int 604800000)] "x-dead-letter-exchange" =
          none ∧
        Table.get? [("x-message-ttl", ArgValue.int 604800000)] "x-dead-letter-routing-key" =
          none :=
  ⟨by decide,
    DeclareQueues_deadLetter_declaration brokerEnv [⟨"orders", 5000000000⟩] ([] : Broker) 0
      ⟨"orders.DL", true, false, false, false, [("x-message-ttl", ArgValue.int 604800000)]⟩
      (by decide)⟩

/-- C2, as the code has it: the argument table of the primary declaration of
a descriptor `q` (position `2 * i`) has the key `x-message-ttl` if and only if
`q.Ttl` is not zero, and then its value is `q.Ttl` divided by 1000000 with
truncation toward zero (`Milliseconds`).  That many milliseconds miss `q.Ttl`
by less than one millisecond and are the same duration as `q.Ttl` exactly when
`q.Ttl` is a whole number of milliseconds. -/
theorem DeclareQueues_primary_ttl {β κ χ ε : Type} (env : Env β κ χ ε)
    (queues : List Queue) (b : β) (i : Nat) (d : QueueDeclareArgs)
    (h : (declared env queues b)[2 * i]? = some d) :
    ∃ q, queues[i]? = some q ∧
      (d.args.get? "x-message-ttl" ≠ none ↔ q.Ttl ≠ 0) ∧
      (q.Ttl ≠ 0 →
        d.args.get? "x-message-ttl" = some (ArgValue.int64 (Int.tdiv q.Ttl 1000000))) ∧
      |q.Ttl - Int.tdiv q.Ttl 1000000 * 1000000| < 1000000 ∧
      (Int.tdiv q.Ttl 1000000 * 1000000 = q.Ttl ↔ (1000000 : Int) ∣ q.Ttl) := by
  obtain ⟨q, hq, hd⟩ :=
    declarationSequence_even queues i d (declared_getElem? env queues b _ d h)
  subst hd
  have ht := Milliseconds_trunc q.Ttl
  refine ⟨q, hq, ?_, ?_, ht.1, ht.2.2⟩
  · by_cases h0 : q.Ttl = 0 <;>
      simp [primaryDeclaration, primaryArgs, h0, Table.get?]
  · intro h0
    simp [primaryDeclaration, primaryArgs, h0, Table.get?, Milliseconds]

theorem DeclareQueues_primary_ttl_witness :
    ∃ q : Queue, [(⟨"orders", 5000000000⟩ : Queue)][0]? = some q ∧
      (Table.get? [("x-dead-letter-exchange", ArgValue.str ""),
          ("x-dead-letter-routing-key", ArgValue.str "orders.DL"),
          ("x-message-ttl", ArgValue.int64 5000)] "x-message-ttl" ≠ none ↔ q.Ttl ≠ 0) ∧
      (q.Ttl ≠ 0 →
        Table.get? [("x-dead-letter-exchange", ArgValue.str ""),
          ("x-dead-letter-routing-key", ArgValue.str "orders.DL"),
          ("x-message-ttl", ArgValue.int64 5000)] "x-message-ttl" =
            some (ArgValue.int64 (Int.tdiv q.Ttl 1000000))) ∧
      |q.Ttl - Int.tdiv q.Ttl 1000000 * 1000000| < 1000000 ∧
      (Int.tdiv q.Ttl 1000000 * 1000000 = q.Ttl ↔ (1000000 : Int) ∣ q.Ttl) :=
  DeclareQueues_primary_ttl brokerEnv [⟨"orders", 5000000000⟩] ([] : Broker) 0
    ⟨"orders", true, false, false, false,
      [("x-dead-letter-exchange", ArgValue.str ""),
       ("x-dead-letter-routing-key", ArgValue.str "orders.DL"),
       ("x-message-ttl", ArgValue.int64 5000)]⟩
    (by decide)

/-- C2 fails as stated: for `Ttl` = 1500000 ns (1.5 ms, not zero) the primary
declaration carries `x-message-ttl` = 1, and 1 ms is not the duration 1.5 ms. -/
theorem primary_ttl_truncates_sub_millisecond :
    (⟨"orders", 1500000⟩ : Queue).Ttl ≠ 0 ∧
      (declared brokerEnv [⟨"orders", 1500000⟩] ([] : Broker))[0]? =
        some ⟨"orders", true, false, false, false,
          [("x-dead-letter-exchange", ArgValue.str ""),
           ("x-dead-letter-routing-key", ArgValue.str "orders.DL"),
           ("x-message-ttl", ArgValue.int64 1)]⟩ ∧
      (1 : Int) * 1000000 ≠ (⟨"orders", 1500000⟩ : Queue).Ttl := by
  decide

/-- C3: the declaration issued at position `2 * i` (the primary declaration of
the `i`-th descriptor `q`) has the name `q.Name`, is durable, not exclusive,
not auto-deleted, not no-wait; in its argument table `x-dead-letter-exchange`
is the empty string, `x-dead-letter-routing-key` is `q.Name ++ ".DL"`, which is
the name of the dead-letter declaration issued right after it (when that one
is issued), and every key of the table is one of these two or `x-message-ttl`. -/
theorem DeclareQueues_primary_declaration {β κ χ ε : Type} (env : Env β κ χ ε)
    (queues : List Queue) (b : β) (i : Nat) (d : QueueDeclareArgs)
    (h : (declared env queues b)[2 * i]? = some d) :
    ∃ q, queues[i]? = some q ∧
      d.name = q.Name ∧
      d.durable = true ∧ d.exclusive = false ∧ d.autoDelete = false ∧ d.noWait = false ∧
      d.args.get? "x-dead-letter-exchange" = some (ArgValue.str "") ∧
      d.args.get? "x-dead-letter-routing-key" = some (ArgValue.str (q.Name ++ ".DL")) ∧
      (∀ d', (declared env queues b)[2 * i + 1]? = some d' →
        d.args.get? "x-dead-letter-routing-key" = some (ArgValue.str d'.name)) ∧
      (∀ k, k ∈ d.args.keys →
        k = "x-dead-letter-exchange" ∨ k = "x-dead-letter-routing-key" ∨
          k = "x-message-ttl") ∧
      d.args.keys.Nodup := by
  obtain ⟨q, hq, hd⟩ :=
    declarationSequence_even queues i d (declared_getElem? env queues b _ d h)
  subst hd
  have hrk : (primaryDeclaration q).args.get? "x-dead-letter-routing-key" =
      some (ArgValue.str (q.Name ++ ".DL")) := by
    by_cases h0 : q.Ttl = 0 <;> simp [primaryDeclaration, primaryArgs, h0, Table.get?]
  refine ⟨q, hq, rfl, rfl, rfl, rfl, rfl, ?_, hrk, ?_, ?_, ?_⟩
  · by_cases h0 : q.Ttl = 0 <;> simp [primaryDeclaration, primaryArgs, h0, Table.get?]
  · intro d' hd'
    obtain ⟨q', hq', hd''⟩ :=
      declarationSequence_odd queues i d' (declared_getElem? env queues b _ d' hd')
    rw [hq] at hq'
    cases hq'
    rw [hrk, hd'']
    rfl
  · intro k hk
    by_cases h0 : q.Ttl = 0 <;>
      simp [primaryDeclaration, primaryArgs, h0, Table.keys] at hk <;> tauto
  · by_cases h0 : q.Ttl = 0 <;>
      simp [primaryDeclaration, primaryArgs, h0, Table.keys]

theorem DeclareQueues_primary_declaration_witness :
    ∃ q : Queue, [(⟨"orders", 0⟩ : Queue), ⟨"mail", 250000000⟩][1]? = some q ∧
      "mail" = q.Name ∧
      true = true ∧ false = false ∧ false = false ∧ false = false ∧
      Table.get? [("x-dead-letter-exchange", ArgValue.str ""),
          ("x-dead-letter-routing-key", ArgValue.str "mail.DL"),
          ("x-message-ttl", ArgValue.int64 250)] "x-dead-letter-exchange" =
        some (ArgValue.str "") ∧
      Table.get? [("x-dead-letter-exchange", ArgValue.str ""),
          ("x-dead-letter-routing-key", ArgValue.str "mail.DL"),
          ("x-message-ttl", ArgValue.int64 250)] "x-dead-letter-routing-key" =
        some (ArgValue.str (q.Name ++ ".DL")) ∧
      (∀ d', (declared brokerEnv [(⟨"orders", 0⟩ : Queue), ⟨"mail", 250000000⟩]
          ([] : Broker))[2 * 1 + 1]? = some d' →
        Table.get? [("x-dead-letter-exchange", ArgValue.str ""),
          ("x-dead-letter-routing-key", ArgValue.str "mail.DL"),
          ("x-message-ttl", ArgValue.int64 250)] "x-dead-letter-routing-key" =
        some (ArgValue.str d'.name)) ∧
      (∀ k, k ∈ Table.keys [("x-dead-letter-exchange", ArgValue.str ""),
          ("x-dead-letter-routing-key", ArgValue.str "mail.DL"),
          ("x-message-ttl", ArgValue.int64 250)] →
        k = "x-dead-letter-exchange" ∨ k = "x-dead-letter-routing-key" ∨
          k = "x-message-ttl") ∧
      (Table.keys [("x-dead-letter-exchange", ArgValue.str ""),
          ("x-dead-letter-routing-key", ArgValue.str "mail.DL"),
          ("x-message-ttl", ArgValue.int64 250)]).Nodup :=
  DeclareQueues_primary_declaration brokerEnv [⟨"orders", 0⟩, ⟨"mail", 250000000⟩]
    ([] : Broker) 1
    ⟨"mail", true, false, false, false,
      [("x-dead-letter-exchange", ArgValue.str ""),
       ("x-dead-letter-routing-key", ArgValue.str "mail.DL"),
       ("x-message-ttl", ArgValue.int64 250)]⟩
    (by decide)

/-- C5: fail-fast without rollback.  Let the channel open (as `ch`) and let
`declarationSequence queues` be `primary(q1), deadLetter(q1), ...`, of length
`2 * n`.  If every declaration of the sequence succeeds when its turn comes,
the calls made are the channel-open, these `2 * n` declarations in this order
and the close, and the result is nil.  If the declaration at index `k` (from 0)
is the first to fail, with error `e`, the calls made are the channel-open, the
first `k + 1` declarations of the sequence and the close (nothing after the
failing one, no delete or other compensating call), and the result is the
non-nil error wrapping `e`. -/
theorem DeclareQueues_fail_fast {β κ χ ε : Type} (env : Env β κ χ ε)
    (queues : List Queue) (b : β) (ch : χ)
    (hopen : (env.openChannel b).2 = Except.ok ch) :
    (declarationSequence queues).length = 2 * queues.length ∧
    ((∀ i d, (declarationSequence queues)[i]? = some d →
        (env.QueueDeclare
          (brokerAfter env ch (env.openChannel b).1 ((declarationSequence queues).take i))
          ch d).2 = none) →
      (DeclareQueues env queues ⟨b, []⟩).1.trace =
          Call.Channel (env.conn b) ::
            ((declarationSequence queues).map (Call.QueueDeclare ch) ++ [Call.Close ch]) ∧
        (DeclareQueues env queues ⟨b, []⟩).2 = none) ∧
    (∀ k d e, (declarationSequence queues)[k]? = some d →
      (∀ i di, i < k → (declarationSequence queues)[i]? = some di →
        (env.QueueDeclare
          (brokerAfter env ch (env.openChannel b).1 ((declarationSequence queues).take i))
          ch di).2 = none) →
      (env.QueueDeclare
          (brokerAfter env ch (env.openChannel b).1 ((declarationSequence queues).take k))
          ch d).2 = some e →
      (DeclareQueues env queues ⟨b, []⟩).1.trace =
          Call.Channel (env.conn b) ::
            (((declarationSequence queues).take (k + 1)).map (Call.QueueDeclare ch) ++
              [Call.Close ch]) ∧
        ((declarationSequence queues).take (k + 1)).length = k + 1 ∧
        (DeclareQueues env queues ⟨b, []⟩).2 = some (errors.Wrap e)) := by
  refine ⟨declarationSequence_length queues, ?_, ?_⟩
  · intro hok
    rw [DeclareQueues_of_open_ok env queues ⟨b, []⟩ ch hopen]
    rw [issueAll_ok env ch (declarationSequence queues) _ hok]
    simp [World.Close]
  · intro k d e hk hok hfail
    rw [DeclareQueues_of_open_ok env queues ⟨b, []⟩ ch hopen]
    rw [issueAll_fail env ch (declarationSequence queues) _ k d e hk hok hfail]
    have hlt : k < (declarationSequence queues).length := by
      by_contra hge
      rw [List.getElem?_eq_none (by omega)] at hk
      simp at hk
    refine ⟨by simp [World.Close], ?_, rfl⟩
    rw [List.length_take]
    omega

theorem DeclareQueues_fail_fast_witness :
    ((DeclareQueues (scriptEnv none (fun _ => (none : Option String)))
          [⟨"a", 0⟩, ⟨"b", 5000000⟩] ⟨0, []⟩).1.trace =
        Call.Channel () ::
          ((declarationSequence [⟨"a", 0⟩, ⟨"b", 5000000⟩]).map (Call.QueueDeclare 7) ++
            [Call.Close 7]) ∧
      (DeclareQueues (scriptEnv none (fun _ => (none : Option String)))
          [⟨"a", 0⟩, ⟨"b", 5000000⟩] ⟨0, []⟩).2 = none) ∧
    ((DeclareQueues (scriptEnv none (fun n => if n = 2 then some "boom" else none))
          [⟨"a", 0⟩, ⟨"b", 5000000⟩] ⟨0, []⟩).1.trace =
        Call.Channel () ::
          (((declarationSequence [⟨"a", 0⟩, ⟨"b", 5000000⟩]).take (2 + 1)).map
              (Call.QueueDeclare 7) ++ [Call.Close 7]) ∧
      ((declarationSequence [⟨"a", 0⟩, ⟨"b", 5000000⟩]).take (2 + 1)).length = 2 + 1 ∧
      (DeclareQueues (scriptEnv none (fun n => if n = 2 then some "boom" else none))
          [⟨"a", 0⟩, ⟨"b", 5000000⟩] ⟨0, []⟩).2 = some (errors.Wrap "boom")) :=
  ⟨(DeclareQueues_fail_fast (scriptEnv none (fun _ => (none : Option String)))
      [⟨"a", 0⟩, ⟨"b", 5000000⟩] 0 7 rfl).2.1 (fun _ _ _ => rfl),
    (DeclareQueues_fail_fast (scriptEnv none (fun n => if n = 2 then some "boom" else none))
      [⟨"a", 0⟩, ⟨"b", 5000000⟩] 0 7 rfl).2.2 2 (primaryDeclaration ⟨"b", 5000000⟩) "boom"
      rfl
      (by
        intro i di hi _
        have h1 : ∀ (l : List QueueDeclareArgs) (n : Nat),
            brokerAfter (scriptEnv none (fun n => if n = 2 then some "boom" else none)) 7 n l =
              n + l.length := by
          intro l
          induction l with
          | nil => intro n; rfl
          | cons x l ih => intro n; simp only [brokerAfter, List.length_cons]; rw [ih]; simp [scriptEnv]; omega
        show (if brokerAfter _ 7 _ _ = 2 then some "boom" else none) = none
        rw [h1, List.length_take]
        have : 0 + min i (declarationSequence [⟨"a", 0⟩, ⟨"b", 5000000⟩]).length ≠ 2 := by
          have := Nat.min_le_left i (declarationSequence [⟨"a", 0⟩, ⟨"b", 5000000⟩]).length
          omega
        simp only [Env.openChannel, scriptEnv]
        rw [if_neg this])
      rfl⟩

/-- C9: one channel for the whole batch.  For every environment and every
descriptor list (the empty one included) the trace starts with exactly one
channel-open on the connection.  If the open fails with `e`, that is the whole
trace (no declaration, no close) and the result is the non-nil error wrapping
`e`.  If it succeeds with channel `ch`, the trace is the open, then some prefix
of the declaration sequence, all issued on `ch`, then exactly one close of
`ch` as the last call; this holds whether the result is nil (then the prefix
is the whole sequence) or an error. -/
theorem DeclareQueues_one_channel {β κ χ ε : Type} (env : Env β κ χ ε)
    (queues : List Queue) (b : β) :
    (∀ e, (env.openChannel b).2 = Except.error e →
      (DeclareQueues env queues ⟨b, []⟩).1.trace = [Call.Channel (env.conn b)] ∧
        (DeclareQueues env queues ⟨b, []⟩).2 = some (errors.Wrap e)) ∧
    (∀ ch, (env.openChannel b).2 = Except.ok ch →
      ∃ k, k ≤ 2 * queues.length ∧
        (DeclareQueues env queues ⟨b, []⟩).1.trace =
          Call.Channel (env.conn b) ::
            (((declarationSequence queues).take k).map (Call.QueueDeclare ch) ++
              [Call.Close ch]) ∧
        ((DeclareQueues env queues ⟨b, []⟩).2 = none → k = 2 * queues.length) ∧
        ((DeclareQueues env queues ⟨b, []⟩).2 = none ∨
          ∃ e, (DeclareQueues env queues ⟨b, []⟩).2 = some (errors.Wrap e))) := by
  constructor
  · intro e he
    rw [DeclareQueues_of_open_error env queues ⟨b, []⟩ e he]
    simp
  · intro ch hch
    rw [DeclareQueues_of_open_ok env queues ⟨b, []⟩ ch hch]
    obtain ⟨k, hk, ht, hn⟩ := issueAll_trace env ch (declarationSequence queues)
      ⟨(env.openChannel b).1, [] ++ [Call.Channel (env.conn b)]⟩
    rw [declarationSequence_length] at hk hn
    refine ⟨k, hk, ?_, hn, ?_⟩
    · simp only [World.Close, ht]
      simp
    · exact issueAll_result env ch _ _

theorem DeclareQueues_one_channel_witness :
    ((DeclareQueues (scriptEnv (some "refused") (fun _ => none)) [⟨"a", 0⟩] ⟨0, []⟩).1.trace =
        [Call.Channel ()] ∧
      (DeclareQueues (scriptEnv (some "refused") (fun _ => none)) [⟨"a", 0⟩] ⟨0, []⟩).2 =
        some (errors.Wrap "refused")) ∧
    ∃ k, k ≤ 2 * [(⟨"a", 0⟩ : Queue), ⟨"b", 1⟩].length ∧
      (DeclareQueues (scriptEnv none (fun n => if n = 1 then some "boom" else none))
          [⟨"a", 0⟩, ⟨"b", 1⟩] ⟨0, []⟩).1.trace =
        Call.Channel () ::
          (((declarationSequence [⟨"a", 0⟩, ⟨"b", 1⟩]).take k).map (Call.QueueDeclare 7) ++
            [Call.Close 7]) ∧
      ((DeclareQueues (scriptEnv none (fun n => if n = 1 then some "boom" else none))
          [⟨"a", 0⟩, ⟨"b", 1⟩] ⟨0, []⟩).2 = none → k = 2 * [(⟨"a", 0⟩ : Queue), ⟨"b", 1⟩].length) ∧
      ((DeclareQueues (scriptEnv none (fun n => if n = 1 then some "boom" else none))
          [⟨"a", 0⟩, ⟨"b", 1⟩] ⟨0, []⟩).2 = none ∨
        ∃ e, (DeclareQueues (scriptEnv none (fun n => if n = 1 then some "boom" else none))
          [⟨"a", 0⟩, ⟨"b", 1⟩] ⟨0, []⟩).2 = some (errors.Wrap e)) :=
  ⟨(DeclareQueues_one_channel (scriptEnv (some "refused") (fun _ => none)) [⟨"a", 0⟩] 0).1
      "refused" rfl,
    (DeclareQueues_one_channel (scriptEnv none (fun n => if n = 1 then some "boom" else none))
      [⟨"a", 0⟩, ⟨"b", 1⟩] 0).2 7 rfl⟩

/-- C8, as the code has it: for every descriptor list that satisfies the
data-model invariant, in which no `Name` is another descriptor's `Name`
followed by `.DL` and every `Name` is at most 252 bytes long (so that its
dead-letter name fits the 255 bytes of a queue name), `DeclareQueues` on a
broker without queues returns nil, and afterwards the broker holds, for every
descriptor `q`, the queue `q.Name`, durable, with the primary argument table
(routing key `q.Name ++ ".DL"`), and the queue `q.Name ++ ".DL"`, durable,
with exactly `x-message-ttl ↦ 604800000`. -/
theorem DeclareQueues_fresh_broker (queues : List Queue)
    (hinv : dataModelInvariant queues) (hclash : noDeadLetterClash queues)
    (hfit : deadLetterNamesFit queues) :
    (DeclareQueues brokerEnv queues ⟨[], []⟩).2 = none ∧
      ∀ q ∈ queues,
        Broker.find? (DeclareQueues brokerEnv queues ⟨[], []⟩).1.broker q.Name =
            some ⟨true, false, false, primaryArgs q⟩ ∧
          (primaryArgs q).get? "x-dead-letter-exchange" = some (ArgValue.str "") ∧
          (primaryArgs q).get? "x-dead-letter-routing-key" =
            some (ArgValue.str (q.Name ++ ".DL")) ∧
          Broker.find? (DeclareQueues brokerEnv queues ⟨[], []⟩).1.broker (q.Name ++ ".DL") =
            some ⟨true, false, false, [("x-message-ttl", ArgValue.int 604800000)]⟩ := by
  have hnd := declarationSequence_names_nodup queues hinv.2 hclash
  have hrun := issueAll_broker_fresh (declarationSequence queues)
    ⟨[], [] ++ [Call.Channel ()]⟩ hnd (declarationSequence_names_fit queues hfit)
    (fun _ _ => rfl)
  have hb : (DeclareQueues brokerEnv queues ⟨[], []⟩).1.broker =
      (declarationSequence queues).map (fun d => (d.name, d.props)) := by
    rw [DeclareQueues_brokerEnv]
    show (issueAll brokerEnv () (declarationSequence queues)
      ⟨[], [] ++ [Call.Channel ()]⟩).1.broker = _
    rw [hrun.2]; rfl
  refine ⟨?_, ?_⟩
  · rw [DeclareQueues_brokerEnv]; exact hrun.1
  · intro q hq
    obtain ⟨hp, hd⟩ := mem_declarationSequence queues q hq
    rw [hb]
    refine ⟨Broker.find?_entries _ _ hp hnd, ?_, primaryArgs_get?_routing_key q,
      Broker.find?_entries _ _ hd hnd⟩
    by_cases h0 : q.Ttl = 0 <;> simp [primaryArgs, h0, Table.get?]

theorem DeclareQueues_fresh_broker_witness :
    (DeclareQueues brokerEnv [⟨"orders", 5000000000⟩, ⟨"mail", 0⟩] ⟨[], []⟩).2 = none ∧
      ∀ q ∈ [(⟨"orders", 5000000000⟩ : Queue), ⟨"mail", 0⟩],
        Broker.find? (DeclareQueues brokerEnv [⟨"orders", 5000000000⟩, ⟨"mail", 0⟩]
            ⟨[], []⟩).1.broker q.Name =
            some ⟨true, false, false, primaryArgs q⟩ ∧
          (primaryArgs q).get? "x-dead-letter-exchange" = some (ArgValue.str "") ∧
          (primaryArgs q).get? "x-dead-letter-routing-key" =
            some (ArgValue.str (q.Name ++ ".DL")) ∧
          Broker.find? (DeclareQueues brokerEnv [⟨"orders", 5000000000⟩, ⟨"mail", 0⟩]
            ⟨[], []⟩).1.broker (q.Name ++ ".DL") =
            some ⟨true, false, false, [("x-message-ttl", ArgValue.int 604800000)]⟩ :=
  DeclareQueues_fresh_broker [⟨"orders", 5000000000⟩, ⟨"mail", 0⟩]
    (by unfold dataModelInvariant; decide) (by unfold noDeadLetterClash; decide)
    (by unfold deadLetterNamesFit; decide)

set_option maxRecDepth 100000 in
/-- C8 fails as stated, in two ways, on lists that satisfy the data-model
invariant (names non-empty and distinct) and a broker without queues.  For the
list `a`, `a.DL` the primary declaration of `a.DL` meets the dead-letter queue
of `a` with other arguments and `DeclareQueues` returns `DeclareError`.  For a
single descriptor whose name is 253 bytes long the dead-letter name has 256
bytes, the client library refuses it, `DeclareQueues` returns that error and
the broker holds no dead-letter queue for the descriptor. -/
theorem fresh_broker_declaration_rejected :
    (dataModelInvariant [⟨"a", 0⟩, ⟨"a.DL", 0⟩] ∧
      (DeclareQueues brokerEnv [⟨"a", 0⟩, ⟨"a.DL", 0⟩] ⟨[], []⟩).2 =
        some (errors.Wrap (BrokerError.DeclareError "a.DL")) ∧
      Broker.find? (DeclareQueues brokerEnv [⟨"a", 0⟩, ⟨"a.DL", 0⟩] ⟨[], []⟩).1.broker "a.DL" =
        some ⟨true, false, false, [("x-message-ttl", ArgValue.int 604800000)]⟩ ∧
      Broker.find? (DeclareQueues brokerEnv [⟨"a", 0⟩, ⟨"a.DL", 0⟩] ⟨[], []⟩).1.broker
        "a.DL.DL" = none) ∧
    (dataModelInvariant [⟨String.mk (List.replicate 253 'q'), 0⟩] ∧
      noDeadLetterClash [⟨String.mk (List.replicate 253 'q'), 0⟩] ∧
      (String.mk (List.replicate 253 'q')).utf8ByteSize = 253 ∧
      (DeclareQueues brokerEnv [⟨String.mk (List.replicate 253 'q'), 0⟩] ⟨[], []⟩).2 =
        some (errors.Wrap
          (BrokerError.ShortstrTooLong (String.mk (List.replicate 253 'q') ++ ".DL"))) ∧
      Broker.find? (DeclareQueues brokerEnv [⟨String.mk (List.replicate 253 'q'), 0⟩]
        ⟨[], []⟩).1.broker (String.mk (List.replicate 253 'q') ++ ".DL") = none) := by
  unfold dataModelInvariant noDeadLetterClash
  decide

end Rabbitmq
